import Mathlib

/-!
Verification of the TicTacTwo (movable-grid tic-tac-toe) engine.

This file gives a shallow embedding, in Lean 4, of the game model in
`src/game.ts`, the evaluation plugin in `src/evaluation.ts` and the search
driver in `src/minimax.ts`, and proves the frozen claims about them.

Modelling conventions:
* TypeScript arrays become `List`; `board[i]` (which yields `undefined` out of
  range) becomes `board[i]?` of type `Option Cell`, so that the source's
  strict-equality tests `board[i] === " "` and `board[i] === player` become
  `board[i]? = some Cell.empty` and `board[i]? = some (Cell.mark p)`:
  both disagree with `undefined` exactly as in JavaScript.
* `throw new Error(...)` becomes `Except` with one error tag per distinct
  message; thrown errors propagate through the search exactly as exceptions do.
* The mutable `stats` object only ever increments `nodesVisited`; it is
  threaded through the recursion as an explicit value.
* The mutable `visited` set is push/popped in a balanced way by the source
  (`visited.add(key)` on entry, `visited.delete(key)` on every exit), so each
  recursive call receives `key :: visited` and no net mutation is visible to
  the caller; `history` is read-only.
* `evaluations.sort((a, b) => b.score - a.score)` (a stable sort in
  ECMAScript) is embedded as the stable `List.insertionSort` with the relation
  `b.score ≤ a.score`, which produces the identical ordering.
* The depth-limited recursion of `minimax` is realised structurally with a
  fuel argument equal to `maxDepth - depth + 1`; the fuel decreases by one
  exactly when `depth` increases by one, so the zero-fuel branch is
  unreachable from the wrapper `minimax`.
* `minimax.ts`'s `evaluateTerminal` forwards exactly the three arguments
  `(winner, aiPlayer, depth)` to its evaluation hook, while the shipped
  `evaluation.ts` declares `EvaluationFunction` with the four parameters
  `(state, winner, aiPlayer, depth)`; the shipped composition is therefore
  ill-typed (tsc TS2554; `NaN` at every terminal under type-erased
  execution).  The engine is embedded over the 3-argument interface it
  actually invokes (`TerminalEvaluation`), the 4-parameter plugin record of
  `evaluation.ts` is embedded separately, and the missing 3-parameter
  default hook is modelled from the spec (see `defaultEvaluationFunction`).
-/

namespace TicTacTwo

/-- The two players, `"X" | "O"` in `src/game.ts`. -/
inductive Player where
  | X : Player
  | O : Player
deriving DecidableEq, Repr

/-- A board cell: a player marker or the blank `" "`. -/
inductive Cell where
  | empty : Cell
  | mark (p : Player) : Cell
deriving DecidableEq, Repr

/-- `Board = Cell[]` from `src/game.ts`. -/
abbrev Board := List Cell

/-- Game state from `src/game.ts`: board, active-window corner and the
per-player placement counters (`placementsByPlayer`). -/
structure GameState where
  board : Board
  activeX : Nat
  activeY : Nat
  placementsX : Nat
  placementsO : Nat
deriving DecidableEq, Repr

/-- Actions from `src/game.ts`: `place(index)`, `shift(dx, dy)`,
`move(from, to)`. -/
inductive Action where
  | place (index : Nat) : Action
  | shift (dx dy : Int) : Action
  | move (fromIdx toIdx : Nat) : Action
deriving DecidableEq, Repr

/-- One tag per distinct `throw new Error(...)` message in `applyAction`. -/
inductive ApplyError where
  | PlacementOverLimit : ApplyError
  | CellOccupied : ApplyError
  | MovementPremature : ApplyError
  | NotOwnPiece : ApplyError
  | DestinationOccupied : ApplyError
  | DestinationOutsideWindow : ApplyError
  | ShiftPremature : ApplyError
  | ShiftOutOfBounds : ApplyError
deriving DecidableEq, Repr

def FIRST_PLAYER : Player := .X

def SECOND_PLAYER : Player := .O

def FIRST_PLAYER_PIECES : Nat := 4

def MAX_PLACEMENTS_PER_PLAYER : Nat := FIRST_PLAYER_PIECES

def BOARD_SIZE : Nat := 5

def ACTIVE_SIZE : Nat := 3

def INITIAL_ACTIVE_COORD : Nat := 1

def PLACEMENTS_BEFORE_MOVEMENT : Nat := 2

def TOTAL_CELLS : Nat := BOARD_SIZE * BOARD_SIZE

/-- Accessor for `state.placementsByPlayer[player]`. -/
def placements (s : GameState) (p : Player) : Nat :=
  match p with
  | .X => s.placementsX
  | .O => s.placementsO

/-- `createInitialState` from `src/game.ts`. -/
def createInitialState : GameState :=
  { board := List.replicate TOTAL_CELLS Cell.empty
    activeX := INITIAL_ACTIVE_COORD
    activeY := INITIAL_ACTIVE_COORD
    placementsX := 0
    placementsO := 0 }

/-- `getOpponent` from `src/game.ts`. -/
def getOpponent (p : Player) : Player :=
  match p with
  | .X => .O
  | .O => .X

/-- `toIndex(row, col) = row * BOARD_SIZE + col`. -/
def toIndex (row col : Nat) : Nat := row * BOARD_SIZE + col

/-- `getActiveIndices` from `src/game.ts`: the nine board indices of the
active 3×3 window, row-major. -/
def getActiveIndices (s : GameState) : List Nat :=
  (List.range ACTIVE_SIZE).flatMap fun row =>
    (List.range ACTIVE_SIZE).map fun col => toIndex (s.activeY + row) (s.activeX + col)

/-- `isCellInActiveGrid` from `src/game.ts`. -/
def isCellInActiveGrid (s : GameState) (row col : Nat) : Bool :=
  decide (s.activeY ≤ row ∧ row < s.activeY + ACTIVE_SIZE ∧
    s.activeX ≤ col ∧ col < s.activeX + ACTIVE_SIZE)

/-- `canShiftGrid` from `src/game.ts`: the shifted corner must stay within
`0 ≤ x, y ≤ BOARD_SIZE - ACTIVE_SIZE` (= 2). -/
def canShiftGrid (s : GameState) (dx dy : Int) : Bool :=
  let targetX : Int := (s.activeX : Int) + dx
  let targetY : Int := (s.activeY : Int) + dy
  decide (0 ≤ targetX ∧ targetX ≤ (BOARD_SIZE : Int) - (ACTIVE_SIZE : Int) ∧
    0 ≤ targetY ∧ targetY ≤ (BOARD_SIZE : Int) - (ACTIVE_SIZE : Int))

/-- The eight shift offsets of `getShiftActions`, cardinal then diagonal. -/
def allShiftOffsets : List (Int × Int) :=
  [(-1, 0), (1, 0), (0, -1), (0, 1), (-1, -1), (1, -1), (-1, 1), (1, 1)]

/-- `getShiftActions` from `src/game.ts`. -/
def getShiftActions (s : GameState) : List (Int × Int) :=
  allShiftOffsets.filter fun d => canShiftGrid s d.1 d.2

/-- `hasReachedMovementMinimum` from `src/game.ts`. -/
def hasReachedMovementMinimum (s : GameState) (p : Player) : Bool :=
  decide (PLACEMENTS_BEFORE_MOVEMENT ≤ placements s p)

/-- `hasReachedPlacementLimit` from `src/game.ts`. -/
def hasReachedPlacementLimit (s : GameState) (p : Player) : Bool :=
  decide (MAX_PLACEMENTS_PER_PLAYER ≤ placements s p)

/-- `getPlayerPieceIndices` from `src/game.ts` (a `reduce` that pushes every
index whose cell holds the player's marker, in increasing index order). -/
def getPlayerPieceIndices (s : GameState) (p : Player) : List Nat :=
  (List.range s.board.length).filter fun i => s.board[i]? = some (Cell.mark p)

/-- `getMoveActions` from `src/game.ts`. -/
def getMoveActions (s : GameState) (p : Player) : List Action :=
  if ¬ hasReachedMovementMinimum s p then []
  else
    let ownedIndices := getPlayerPieceIndices s p
    let emptyActiveIndices := (getActiveIndices s).filter fun i => s.board[i]? = some Cell.empty
    if ownedIndices.isEmpty || emptyActiveIndices.isEmpty then []
    else
      ownedIndices.flatMap fun fromIdx =>
        (emptyActiveIndices.filter fun toIdx => fromIdx ≠ toIdx).map fun toIdx =>
          Action.move fromIdx toIdx

/-- The local `placements` list of `getAvailableActions` in `src/game.ts`. -/
def placementActionsOf (s : GameState) (p : Player) : List Action :=
  if hasReachedPlacementLimit s p then []
  else
    ((getActiveIndices s).filter fun i => s.board[i]? = some Cell.empty).map fun i =>
      Action.place i

/-- The local `shifts` list of `getAvailableActions` in `src/game.ts`. -/
def shiftActionsOf (s : GameState) (p : Player) : List Action :=
  if hasReachedMovementMinimum s p then
    (getShiftActions s).map fun d => Action.shift d.1 d.2
  else []

/-- `getAvailableActions` from `src/game.ts`: placements, then moves, then
shifts. -/
def getAvailableActions (s : GameState) (p : Player) : List Action :=
  placementActionsOf s p ++ getMoveActions s p ++ shiftActionsOf s p

/-- `applyAction` from `src/game.ts`; each `throw` becomes an `Except.error`. -/
def applyAction (s : GameState) (action : Action) (player : Player) :
    Except ApplyError GameState :=
  match action with
  | .place index =>
    if hasReachedPlacementLimit s player then .error .PlacementOverLimit
    else if ¬ (s.board[index]? = some Cell.empty) then .error .CellOccupied
    else
      .ok { s with
              board := s.board.set index (Cell.mark player)
              placementsX := if player = .X then s.placementsX + 1 else s.placementsX
              placementsO := if player = .O then s.placementsO + 1 else s.placementsO }
  | .move fromIdx toIdx =>
    if ¬ hasReachedMovementMinimum s player then .error .MovementPremature
    else if ¬ (s.board[fromIdx]? = some (Cell.mark player)) then .error .NotOwnPiece
    else if ¬ (s.board[toIdx]? = some Cell.empty) then .error .DestinationOccupied
    else if ¬ (isCellInActiveGrid s (toIdx / BOARD_SIZE) (toIdx % BOARD_SIZE) = true) then
      .error .DestinationOutsideWindow
    else
      .ok { s with board := (s.board.set fromIdx Cell.empty).set toIdx (Cell.mark player) }
  | .shift dx dy =>
    if ¬ hasReachedMovementMinimum s player then .error .ShiftPremature
    else if ¬ (canShiftGrid s dx dy = true) then .error .ShiftOutOfBounds
    else
      .ok { s with
              activeX := ((s.activeX : Int) + dx).toNat
              activeY := ((s.activeY : Int) + dy).toNat }

/-- One winning line, as three window-relative `(row, col)` offsets
(`relativeWinningLines` entries in `src/game.ts` are fixed 3-element arrays
accessed at positions 0, 1, 2). -/
abbrev WinLine := (Nat × Nat) × (Nat × Nat) × (Nat × Nat)

/-- `relativeWinningLines` from `src/game.ts`: 3 rows, 3 columns, 2
diagonals, in source order. -/
def relativeWinningLines : List WinLine :=
  [ ((0, 0), (0, 1), (0, 2)),
    ((1, 0), (1, 1), (1, 2)),
    ((2, 0), (2, 1), (2, 2)),
    ((0, 0), (1, 0), (2, 0)),
    ((0, 1), (1, 1), (2, 1)),
    ((0, 2), (1, 2), (2, 2)),
    ((0, 0), (1, 1), (2, 2)),
    ((0, 2), (1, 1), (2, 0)) ]

/-- The board cell addressed by a window-relative offset:
`board[(activeY + r) * BOARD_SIZE + activeX + c]`. -/
def windowCell (s : GameState) (rc : Nat × Nat) : Option Cell :=
  s.board[(s.activeY + rc.1) * BOARD_SIZE + (s.activeX + rc.2)]?

/-- The scanning loop of `getWinner`: first non-continue line returns its
`first` cell (`undefined`, possible only off the board, is falsy in the
source and is rendered as `none`). -/
def getWinnerAux (s : GameState) : List WinLine → Option Player
  | [] => none
  | line :: rest =>
    let first := windowCell s line.1
    if first = some Cell.empty then getWinnerAux s rest
    else
      let second := windowCell s line.2.1
      if ¬ (second = first) then getWinnerAux s rest
      else
        let third := windowCell s line.2.2
        if third = first then
          match first with
          | some (Cell.mark p) => some p
          | _ => none
        else getWinnerAux s rest

/-- `getWinner` from `src/game.ts`. -/
def getWinner (s : GameState) : Option Player :=
  getWinnerAux s relativeWinningLines

/-- `isDraw` from `src/game.ts`: some empty cell → false, else no winner. -/
def isDraw (s : GameState) : Bool :=
  if s.board.contains Cell.empty then false else (getWinner s).isNone

/-- Character used for a cell in the state key. -/
def cellToKeyString (c : Cell) : String :=
  match c with
  | .empty => " "
  | .mark .X => "X"
  | .mark .O => "O"

/-- Character used for a player in the state key. -/
def playerToKeyString (p : Player) : String :=
  match p with
  | .X => "X"
  | .O => "O"

/-- `getStateKey` from `src/game.ts`: board characters, then
`|ax,ay|player|pX,pO`. -/
def getStateKey (s : GameState) (currentPlayer : Player) : String :=
  (s.board.foldl (fun key c => key ++ cellToKeyString c) "")
    ++ "|" ++ toString s.activeX ++ "," ++ toString s.activeY
    ++ "|" ++ playerToKeyString currentPlayer
    ++ "|" ++ toString s.placementsX ++ "," ++ toString s.placementsO

/-- Evaluation-function contract from `src/evaluation.ts`:
`(state, winner, aiPlayer, depth) → number`. -/
abbrev EvaluationFunction := GameState → Option Player → Player → Nat → Int

/-- `defaultHeuristic` from `src/evaluation.ts`: terminal-only scoring. -/
def defaultHeuristic : EvaluationFunction := fun _state winner aiPlayer depth =>
  match winner with
  | none => 0
  | some w => if w = aiPlayer then 10 - (depth : Int) else (depth : Int) - 10

/-- Evaluation plugin record from `src/evaluation.ts`. -/
structure EvaluationPlugin where
  name : String
  description : String
  evaluate : EvaluationFunction

/-- `DEFAULT_EVALUATION_PLUGIN` from `src/evaluation.ts`. -/
def DEFAULT_EVALUATION_PLUGIN : EvaluationPlugin :=
  { name := "default"
    description := "Terminal-only: +10-depth for wins, depth-10 for losses, 0 for draws"
    evaluate := defaultHeuristic }

/-- The evaluation interface as `src/minimax.ts` actually exercises it:
`evaluateTerminal` forwards exactly the three arguments
`(winner, aiPlayer, depth)` to its evaluation hook and uses the returned
number as a score.  Note that this does not match the shipped
`src/evaluation.ts`, whose `EvaluationFunction` declares the four parameters
`(state, winner, aiPlayer, depth)`: the shipped composition is ill-typed
(tsc error TS2554; under type-erased execution the winner lands in the
`state` slot, `aiPlayer` in the `winner` slot, `depth` in the `aiPlayer`
slot and `depth` is `undefined`, so the shipped default plugin returns
`undefined - 10 = NaN` at every terminal).  The old plugin test
(`tests/minimax-bench.test.js`: `loaded.evaluate(null, "X", 0)`) shows the
3-parameter signature belonged to the `evaluation.ts` revision that matches
this `minimax.ts`; that revision is not in the repository. -/
abbrev TerminalEvaluation := Option Player → Player → Nat → Int

/-- `evaluateTerminal` from `src/minimax.ts` (lines 16-17): forward
`(winner, aiPlayer, depth)` — and nothing else — to the evaluation hook. -/
def evaluateTerminal (winner : Option Player) (aiPlayer : Player) (depth : Nat)
    (evaluate : TerminalEvaluation) : Int :=
  evaluate winner aiPlayer depth

/-- Modelled from the spec: `defaultEvaluationFunction` in `src/minimax.ts`
line 14 is `DEFAULT_EVALUATION_PLUGIN.evaluate`, but the shipped
`src/evaluation.ts` gives that plugin the four-parameter signature above,
which cannot be applied to the three arguments `minimax.ts` passes; the
3-parameter revision of `evaluation.ts` that fits this `minimax.ts` is
missing from the repository (see `TerminalEvaluation`).  The default hook is
therefore modelled from the spec's terminal-only plugin on the three passed
arguments: `winner == aiSide → 10 − depth`; `winner == opponent →
depth − 10`; non-winner → 0. -/
def defaultEvaluationFunction : TerminalEvaluation := fun winner aiPlayer depth =>
  match winner with
  | none => 0
  | some w => if w = aiPlayer then 10 - (depth : Int) else (depth : Int) - 10

/-- `MinimaxStats` from `src/minimax.ts`: the accumulated statistics hold the
single counter `nodesVisited`. -/
structure MinimaxStats where
  nodesVisited : Nat
deriving DecidableEq, Repr

/-- `MinimaxResult` from `src/minimax.ts`. -/
structure MinimaxResult where
  score : Int
  action : Option Action
  pv : List Action
deriving DecidableEq, Repr

/-- Errors escaping the search: a propagated `applyAction` exception, or the
explicit `NoLegalMoves` throw of `chooseBestAction`. -/
inductive SearchError where
  | illegalAction (e : ApplyError) : SearchError
  | NoLegalMoves : SearchError
deriving DecidableEq, Repr

/-- The history filter of `src/minimax.ts` (`allActions.filter(...)`): keep
an action iff the key of its successor state is not in `history`; an
`applyAction` exception aborts the whole filter. -/
def filterHistory (s : GameState) (p : Player) (history : List String) :
    List Action → Except SearchError (List Action)
  | [] => .ok []
  | a :: rest =>
    match applyAction s a p with
    | .error e => .error (.illegalAction e)
    | .ok nextState =>
      let nextKey := getStateKey nextState (getOpponent p)
      match filterHistory s p history rest with
      | .error e => .error e
      | .ok tail => .ok (if history.contains nextKey then tail else a :: tail)

/-- The predicate of the history filter, as a Boolean on one action: the
action's successor state (which must exist) has a key not in `history`. -/
def keepsFresh (s : GameState) (p : Player) (history : List String) (a : Action) : Bool :=
  match applyAction s a p with
  | .ok nextState => ! history.contains (getStateKey nextState (getOpponent p))
  | .error _ => false

/-- Accumulator step of the maximising loop of `minimax`
(`if (result.score > bestScore)`; the `none` accumulator is the initial
`bestScore = -Infinity`, smaller than every finite score). -/
def maxStep (best : Option (Int × Action × List Action)) (action : Action)
    (result : MinimaxResult) : Option (Int × Action × List Action) :=
  match best with
  | none => some (result.score, action, action :: result.pv)
  | some (bestScore, bestAction, bestPV) =>
    if bestScore < result.score then some (result.score, action, action :: result.pv)
    else some (bestScore, bestAction, bestPV)

/-- Accumulator step of the minimising loop of `minimax`
(`if (result.score < worstScore)`; `none` is the initial `+Infinity`). -/
def minStep (worst : Option (Int × Action × List Action)) (action : Action)
    (result : MinimaxResult) : Option (Int × Action × List Action) :=
  match worst with
  | none => some (result.score, action, action :: result.pv)
  | some (worstScore, worstAction, worstPV) =>
    if result.score < worstScore then some (result.score, action, action :: result.pv)
    else some (worstScore, worstAction, worstPV)

/-- Package the loop accumulator as the returned `MinimaxResult`. The `none`
case is unreachable (the loop runs on a non-empty action list), matching the
source where `bestAction` stays `undefined` only if the loop body never ran. -/
def loopResult (acc : Option (Int × Action × List Action)) : MinimaxResult :=
  match acc with
  | some (score, action, pv) => ⟨score, some action, pv⟩
  | none => ⟨0, none, []⟩

/-- The loop-accumulator type of the search loops: best-so-far (score, action,
PV) plus the threaded stats, or a propagating exception. -/
abbrev LoopAcc := Except SearchError (Option (Int × Action × List Action) × MinimaxStats)

/-- One iteration of the maximising `for` loop of `minimax`: apply the action,
run the child search (`recurse`, the source's recursive call at depth + 1),
and keep the strictly better score. -/
def maxLoopStep (state : GameState) (currentPlayer : Player)
    (recurse : GameState → MinimaxStats →
      Except SearchError (MinimaxResult × MinimaxStats))
    (acc : LoopAcc) (action : Action) : LoopAcc :=
  match acc with
  | .error e => .error e
  | .ok (best, st) =>
    match applyAction state action currentPlayer with
    | .error e => .error (.illegalAction e)
    | .ok nextState =>
      match recurse nextState st with
      | .error e => .error e
      | .ok (result, st2) => .ok (maxStep best action result, st2)

/-- One iteration of the minimising `for` loop of `minimax`. -/
def minLoopStep (state : GameState) (currentPlayer : Player)
    (recurse : GameState → MinimaxStats →
      Except SearchError (MinimaxResult × MinimaxStats))
    (acc : LoopAcc) (action : Action) : LoopAcc :=
  match acc with
  | .error e => .error e
  | .ok (worst, st) =>
    match applyAction state action currentPlayer with
    | .error e => .error (.illegalAction e)
    | .ok nextState =>
      match recurse nextState st with
      | .error e => .error e
      | .ok (result, st2) => .ok (minStep worst action result, st2)

/-- `minimax` from `src/minimax.ts`, with an explicit structural fuel; the
wrapper `minimax` below instantiates `fuel = maxDepth - depth + 1`, which
makes the `0` branch unreachable because the recursion stops at
`depth ≥ maxDepth`.  The two folds are the source's maximising and minimising
`for` loops; an error accumulator models a thrown exception aborting the
loop. -/
def minimaxFuel : Nat → GameState → Player → Player → Nat → Nat → List String →
    List String → MinimaxStats → TerminalEvaluation →
    Except SearchError (MinimaxResult × MinimaxStats)
  | 0, state, _, aiPlayer, depth, _, _, _, stats, evaluate =>
    .ok (⟨evaluateTerminal none aiPlayer depth evaluate, none, []⟩, ⟨stats.nodesVisited + 1⟩)
  | fuel + 1, state, currentPlayer, aiPlayer, depth, maxDepth, visited, history, stats,
      evaluate =>
    let stats : MinimaxStats := ⟨stats.nodesVisited + 1⟩
    match getWinner state with
    | some w => .ok (⟨evaluateTerminal (some w) aiPlayer depth evaluate, none, []⟩, stats)
    | none =>
      if isDraw state then .ok (⟨evaluateTerminal none aiPlayer depth evaluate, none, []⟩, stats)
      else if maxDepth ≤ depth then
        .ok (⟨evaluateTerminal none aiPlayer depth evaluate, none, []⟩, stats)
      else
        let key := getStateKey state currentPlayer
        if visited.contains key then
          .ok (⟨evaluateTerminal none aiPlayer depth evaluate, none, []⟩, stats)
        else
          match filterHistory state currentPlayer history
              (getAvailableActions state currentPlayer) with
          | .error e => .error e
          | .ok actions =>
            if actions.isEmpty then
              .ok (⟨evaluateTerminal none aiPlayer depth evaluate, none, []⟩, stats)
            else
              let opponent := getOpponent currentPlayer
              let visitedWithKey := key :: visited
              if currentPlayer = aiPlayer then
                match actions.foldl
                    (maxLoopStep state currentPlayer fun nextState st =>
                      minimaxFuel fuel nextState opponent aiPlayer (depth + 1) maxDepth
                        visitedWithKey history st evaluate)
                    (.ok (none, stats)) with
                | .error e => .error e
                | .ok (best, st) => .ok (loopResult best, st)
              else
                match actions.foldl
                    (minLoopStep state currentPlayer fun nextState st =>
                      minimaxFuel fuel nextState opponent aiPlayer (depth + 1) maxDepth
                        visitedWithKey history st evaluate)
                    (.ok (none, stats)) with
                | .error e => .error e
                | .ok (worst, st) => .ok (loopResult worst, st)

/-- `minimax` from `src/minimax.ts`. -/
def minimax (state : GameState) (currentPlayer aiPlayer : Player) (depth maxDepth : Nat)
    (visited history : List String) (stats : MinimaxStats)
    (evaluate : TerminalEvaluation) : Except SearchError (MinimaxResult × MinimaxStats) :=
  minimaxFuel (maxDepth - depth + 1) state currentPlayer aiPlayer depth maxDepth visited
    history stats evaluate

/-- `EngineEvaluation` from `src/minimax.ts`. -/
structure EngineEvaluation where
  score : Int
  action : Action
  pv : List Action
deriving DecidableEq, Repr

/-- The `actions.map(...)` of `getEngineEvaluations`: run the search under
each root action, threading the shared `stats`; each branch's `visited` set
is fresh and seeded with the root key. -/
def engineEvalLoop (state : GameState) (opponent aiPlayer : Player) (depthLimit : Nat)
    (rootKey : String) (history : List String) (evaluate : TerminalEvaluation) :
    List Action → MinimaxStats → Except SearchError (List EngineEvaluation × MinimaxStats)
  | [], stats => .ok ([], stats)
  | action :: rest, stats =>
    match applyAction state action aiPlayer with
    | .error e => .error (.illegalAction e)
    | .ok nextState =>
      match minimax nextState opponent aiPlayer 1 depthLimit [rootKey] history stats
          evaluate with
      | .error e => .error e
      | .ok (result, stats2) =>
        match engineEvalLoop state opponent aiPlayer depthLimit rootKey history evaluate
            rest stats2 with
        | .error e => .error e
        | .ok (tail, stats3) =>
          .ok (⟨result.score, action, action :: result.pv⟩ :: tail, stats3)

/-- The comparator of `evaluations.sort((a, b) => b.score - a.score)`:
`a` may precede `b` iff `b.score ≤ a.score`. -/
def scoreDescOrder (a b : EngineEvaluation) : Prop := b.score ≤ a.score

instance : DecidableRel scoreDescOrder := fun a b => Int.decLe b.score a.score

/-- `getEngineEvaluations` from `src/minimax.ts`. -/
def getEngineEvaluations (state : GameState) (aiPlayer : Player) (history : List String)
    (depthLimit : Nat) (count : Int) (evaluate : TerminalEvaluation) :
    Except SearchError (List EngineEvaluation × MinimaxStats) :=
  let stats : MinimaxStats := ⟨0⟩
  let allActions := getAvailableActions state aiPlayer
  match filterHistory state aiPlayer history allActions with
  | .error e => .error e
  | .ok actions =>
    if actions.isEmpty then .ok ([], stats)
    else
      let opponent := getOpponent aiPlayer
      let rootKey := getStateKey state aiPlayer
      match engineEvalLoop state opponent aiPlayer depthLimit rootKey history evaluate
          actions stats with
      | .error e => .error e
      | .ok (evaluations, stats2) =>
        let sorted := evaluations.insertionSort scoreDescOrder
        .ok ((if 0 < count then sorted.take count.toNat else sorted), stats2)

/-- `chooseBestAction` from `src/minimax.ts`: multi-PV with `count = 1`, throw
`NoLegalMoves` when no evaluation survives. -/
def chooseBestAction (state : GameState) (aiPlayer : Player) (history : List String)
    (depthLimit : Nat) (evaluate : TerminalEvaluation) : Except SearchError Action :=
  match getEngineEvaluations state aiPlayer history depthLimit 1 evaluate with
  | .error e => .error e
  | .ok (evaluations, _) =>
    match evaluations with
    | [] => .error .NoLegalMoves
    | e :: _ => .ok e.action

/-- States reachable from `createInitialState` through enumerated legal
actions (an action listed by `getAvailableActions` for some side, applied
successfully). -/
inductive Reachable : GameState → Prop where
  | init : Reachable createInitialState
  | step {s s' : GameState} {p : Player} {a : Action} :
      Reachable s → a ∈ getAvailableActions s p → applyAction s a p = .ok s' →
      Reachable s'

/-- Sample state: X markers on the top row of the initial active window
(cells 6, 7, 8), three X placements made. -/
def topRowWinState : GameState :=
  { board := (((List.replicate 25 Cell.empty).set 6 (Cell.mark .X)).set 7
      (Cell.mark .X)).set 8 (Cell.mark .X)
    activeX := 1
    activeY := 1
    placementsX := 3
    placementsO := 0 }

/-- Sample state: X markers at cells 6 and 11, two X placements made. -/
def moveSampleState : GameState :=
  { board := ((List.replicate 25 Cell.empty).set 6 (Cell.mark .X)).set 11 (Cell.mark .X)
    activeX := 1
    activeY := 1
    placementsX := 2
    placementsO := 0 }

section Lemmas

/-- Membership in the active-window index list, in raw arithmetic form. -/
theorem mem_getActiveIndices {s : GameState} {i : Nat} :
    i ∈ getActiveIndices s ↔
      ∃ r c, r < 3 ∧ c < 3 ∧ (s.activeY + r) * 5 + (s.activeX + c) = i := by
  simp only [getActiveIndices, List.mem_flatMap, List.mem_map, List.mem_range, toIndex,
    ACTIVE_SIZE, BOARD_SIZE]
  constructor
  · rintro ⟨r, hr, c, hc, h⟩
    exact ⟨r, c, hr, hc, h⟩
  · rintro ⟨r, c, hr, hc, h⟩
    exact ⟨r, hr, c, hc, h⟩

/-- With the corner inside {0,1,2}², active-window membership of an index is
exactly window membership of its (row, col) pair. -/
theorem mem_getActiveIndices_window {s : GameState} {i : Nat} (hax : s.activeX ≤ 2)
    (hay : s.activeY ≤ 2) :
    i ∈ getActiveIndices s ↔ i < 25 ∧ isCellInActiveGrid s (i / 5) (i % 5) = true := by
  rw [mem_getActiveIndices]
  simp only [isCellInActiveGrid, ACTIVE_SIZE, decide_eq_true_eq]
  constructor
  · rintro ⟨r, c, hr, hc, rfl⟩
    omega
  · rintro ⟨h25, hy1, hy2, hx1, hx2⟩
    exact ⟨i / 5 - s.activeY, i % 5 - s.activeX, by omega, by omega, by omega⟩

/-- Membership in `getPlayerPieceIndices`. -/
theorem mem_getPlayerPieceIndices {s : GameState} {p : Player} {f : Nat} :
    f ∈ getPlayerPieceIndices s p ↔ s.board[f]? = some (Cell.mark p) := by
  simp only [getPlayerPieceIndices, List.mem_filter, List.mem_range, decide_eq_true_eq,
    and_iff_right_iff_imp]
  intro h
  exact (List.getElem?_eq_some_iff.mp h).1

/-- Membership in the placement segment of `getAvailableActions`. -/
theorem mem_placementActionsOf {s : GameState} {p : Player} {a : Action} :
    a ∈ placementActionsOf s p ↔
      ∃ i, a = .place i ∧ placements s p < 4 ∧ i ∈ getActiveIndices s ∧
        s.board[i]? = some Cell.empty := by
  unfold placementActionsOf
  by_cases h : MAX_PLACEMENTS_PER_PLAYER ≤ placements s p
  · have hb : hasReachedPlacementLimit s p = true := by
      simp [hasReachedPlacementLimit, h]
    rw [hb]
    simp only [if_true, List.not_mem_nil, false_iff, not_exists]
    intro i hi
    simp only [MAX_PLACEMENTS_PER_PLAYER, FIRST_PLAYER_PIECES] at h
    omega
  · have hb : hasReachedPlacementLimit s p = false := by
      simp [hasReachedPlacementLimit, h]
    rw [hb]
    simp only [MAX_PLACEMENTS_PER_PLAYER, FIRST_PLAYER_PIECES, not_le] at h
    simp only [Bool.false_eq_true, if_false, List.mem_map, List.mem_filter,
      decide_eq_true_eq]
    constructor
    · rintro ⟨i, ⟨hi, he⟩, rfl⟩
      exact ⟨i, rfl, h, hi, he⟩
    · rintro ⟨i, rfl, _, hi, he⟩
      exact ⟨i, ⟨hi, he⟩, rfl⟩

/-- Membership in `getMoveActions`. -/
theorem mem_getMoveActions {s : GameState} {p : Player} {a : Action} :
    a ∈ getMoveActions s p ↔
      ∃ f t, a = .move f t ∧ 2 ≤ placements s p ∧ s.board[f]? = some (Cell.mark p) ∧
        t ∈ getActiveIndices s ∧ s.board[t]? = some Cell.empty ∧ f ≠ t := by
  unfold getMoveActions
  by_cases hmin : PLACEMENTS_BEFORE_MOVEMENT ≤ placements s p
  · have hb : hasReachedMovementMinimum s p = true := by
      simp [hasReachedMovementMinimum, hmin]
    rw [hb]
    simp only [PLACEMENTS_BEFORE_MOVEMENT] at hmin
    simp only [Bool.true_eq_false, not_true_eq_false, if_false, ite_not]
    by_cases hemp : (getPlayerPieceIndices s p).isEmpty = true ∨
        ((getActiveIndices s).filter fun i => s.board[i]? = some Cell.empty).isEmpty = true
    · have : ((getPlayerPieceIndices s p).isEmpty ||
          ((getActiveIndices s).filter fun i =>
            s.board[i]? = some Cell.empty).isEmpty) = true := by
        rcases hemp with h | h <;> simp [h]
      rw [if_pos this]
      simp only [List.not_mem_nil, false_iff, not_exists]
      rintro f t ⟨rfl, _, hf, ht, hte, hne⟩
      rcases hemp with h | h
      · rw [List.isEmpty_iff] at h
        exact absurd (mem_getPlayerPieceIndices.mpr hf) (by simp [h])
      · rw [List.isEmpty_iff] at h
        have : t ∈ (getActiveIndices s).filter fun i => s.board[i]? = some Cell.empty :=
          List.mem_filter.mpr ⟨ht, by simp [hte]⟩
        exact absurd this (by simp [h])
    · push_neg at hemp
      have : ((getPlayerPieceIndices s p).isEmpty ||
          ((getActiveIndices s).filter fun i =>
            s.board[i]? = some Cell.empty).isEmpty) = false := by
        rcases hemp with ⟨h1, h2⟩
        simp only [Bool.or_eq_false_iff]
        exact ⟨by simpa using h1, by simpa using h2⟩
      rw [if_neg (by simp [this])]
      simp only [List.mem_flatMap, List.mem_map, List.mem_filter, decide_eq_true_eq]
      constructor
      · rintro ⟨f, hf, t, ⟨⟨ht, hte⟩, hne⟩, rfl⟩
        exact ⟨f, t, rfl, hmin, mem_getPlayerPieceIndices.mp hf, ht, hte, hne⟩
      · rintro ⟨f, t, rfl, _, hf, ht, hte, hne⟩
        exact ⟨f, mem_getPlayerPieceIndices.mpr hf, t, ⟨⟨ht, hte⟩, hne⟩, rfl⟩
  · have hb : hasReachedMovementMinimum s p = false := by
      simp [hasReachedMovementMinimum, hmin]
    rw [hb]
    simp only [PLACEMENTS_BEFORE_MOVEMENT] at hmin
    simp only [Bool.false_eq_true, not_false_eq_true, if_true, List.not_mem_nil, false_iff,
      not_exists]
    rintro f t ⟨_, h2, _⟩
    omega

/-- Membership in the shift segment of `getAvailableActions`. -/
theorem mem_shiftActionsOf {s : GameState} {p : Player} {a : Action} :
    a ∈ shiftActionsOf s p ↔
      ∃ dx dy, a = .shift dx dy ∧ 2 ≤ placements s p ∧ (dx, dy) ∈ allShiftOffsets ∧
        canShiftGrid s dx dy = true := by
  unfold shiftActionsOf
  by_cases hmin : PLACEMENTS_BEFORE_MOVEMENT ≤ placements s p
  · have hb : hasReachedMovementMinimum s p = true := by
      simp [hasReachedMovementMinimum, hmin]
    rw [hb, if_pos rfl]
    simp only [PLACEMENTS_BEFORE_MOVEMENT] at hmin
    simp only [getShiftActions, List.mem_map, List.mem_filter]
    constructor
    · rintro ⟨⟨dx, dy⟩, ⟨hmem, hcan⟩, rfl⟩
      exact ⟨dx, dy, rfl, hmin, hmem, hcan⟩
    · rintro ⟨dx, dy, rfl, _, hmem, hcan⟩
      exact ⟨(dx, dy), ⟨hmem, hcan⟩, rfl⟩
  · have hb : hasReachedMovementMinimum s p = false := by
      simp [hasReachedMovementMinimum, hmin]
    rw [hb]
    simp only [PLACEMENTS_BEFORE_MOVEMENT] at hmin
    simp only [Bool.false_eq_true, if_false, List.not_mem_nil, false_iff, not_exists]
    rintro dx dy ⟨_, h2, _⟩
    omega

/-- A legal placement applies successfully. -/
theorem applyAction_place_isOk {s : GameState} {p : Player} {i : Nat}
    (h4 : placements s p < 4) (he : s.board[i]? = some Cell.empty) :
    ∃ s', applyAction s (.place i) p = .ok s' := by
  have h1 : hasReachedPlacementLimit s p = false := by
    simp only [hasReachedPlacementLimit, MAX_PLACEMENTS_PER_PLAYER, FIRST_PLAYER_PIECES,
      decide_eq_false_iff_not]
    omega
  cases happly : applyAction s (.place i) p with
  | ok s' => exact ⟨s', rfl⟩
  | error e => simp [applyAction, h1, he] at happly

/-- A legal move applies successfully. -/
theorem applyAction_move_isOk {s : GameState} {p : Player} {f t : Nat}
    (h2 : 2 ≤ placements s p) (hf : s.board[f]? = some (Cell.mark p))
    (ht : s.board[t]? = some Cell.empty)
    (hw : isCellInActiveGrid s (t / 5) (t % 5) = true) :
    ∃ s', applyAction s (.move f t) p = .ok s' := by
  have h1 : hasReachedMovementMinimum s p = true := by
    simp only [hasReachedMovementMinimum, PLACEMENTS_BEFORE_MOVEMENT, decide_eq_true_eq]
    omega
  cases happly : applyAction s (.move f t) p with
  | ok s' => exact ⟨s', rfl⟩
  | error e => simp [applyAction, h1, hf, ht, BOARD_SIZE, hw] at happly

/-- A legal shift applies successfully. -/
theorem applyAction_shift_isOk {s : GameState} {p : Player} {dx dy : Int}
    (h2 : 2 ≤ placements s p) (hc : canShiftGrid s dx dy = true) :
    ∃ s', applyAction s (.shift dx dy) p = .ok s' := by
  have h1 : hasReachedMovementMinimum s p = true := by
    simp only [hasReachedMovementMinimum, PLACEMENTS_BEFORE_MOVEMENT, decide_eq_true_eq]
    omega
  cases happly : applyAction s (.shift dx dy) p with
  | ok s' => exact ⟨s', rfl⟩
  | error e => simp [applyAction, h1, hc] at happly

/-- Core of the enumerator/application compatibility: every enumerated action
applies successfully (window corner in {0,1,2}²). -/
theorem applyAction_ok_of_available {s : GameState} {p : Player} {a : Action}
    (hax : s.activeX ≤ 2) (hay : s.activeY ≤ 2) (h : a ∈ getAvailableActions s p) :
    ∃ s', applyAction s a p = .ok s' := by
  rw [getAvailableActions, List.append_assoc, List.mem_append, List.mem_append] at h
  rcases h with h | h | h
  · obtain ⟨i, rfl, h4, hi, he⟩ := mem_placementActionsOf.mp h
    exact applyAction_place_isOk h4 he
  · obtain ⟨f, t, rfl, h2, hf, ht, hte, _⟩ := mem_getMoveActions.mp h
    exact applyAction_move_isOk h2 hf hte ((mem_getActiveIndices_window hax hay).mp ht).2
  · obtain ⟨dx, dy, rfl, h2, _, hc⟩ := mem_shiftActionsOf.mp h
    exact applyAction_shift_isOk h2 hc

/-- Inversion of a successful placement. -/
theorem applyAction_place_eq_ok {s s' : GameState} {p : Player} {i : Nat} :
    applyAction s (.place i) p = .ok s' ↔
      placements s p < 4 ∧ s.board[i]? = some Cell.empty ∧
      s' = { s with
              board := s.board.set i (Cell.mark p)
              placementsX := if p = .X then s.placementsX + 1 else s.placementsX
              placementsO := if p = .O then s.placementsO + 1 else s.placementsO } := by
  unfold applyAction
  by_cases h4 : MAX_PLACEMENTS_PER_PLAYER ≤ placements s p
  · have hb : hasReachedPlacementLimit s p = true := by
      simp [hasReachedPlacementLimit, h4]
    rw [hb]
    simp only [MAX_PLACEMENTS_PER_PLAYER, FIRST_PLAYER_PIECES] at h4
    simp only [if_true, reduceCtorEq, false_iff, not_and]
    intro h
    omega
  · have hb : hasReachedPlacementLimit s p = false := by
      simp [hasReachedPlacementLimit, h4]
    rw [hb]
    simp only [MAX_PLACEMENTS_PER_PLAYER, FIRST_PLAYER_PIECES, not_le] at h4
    by_cases he : s.board[i]? = some Cell.empty
    · simp [he, h4, eq_comm]
    · simp [he, h4]

/-- Inversion of a successful move. -/
theorem applyAction_move_eq_ok {s s' : GameState} {p : Player} {f t : Nat} :
    applyAction s (.move f t) p = .ok s' ↔
      2 ≤ placements s p ∧ s.board[f]? = some (Cell.mark p) ∧
      s.board[t]? = some Cell.empty ∧
      isCellInActiveGrid s (t / BOARD_SIZE) (t % BOARD_SIZE) = true ∧
      s' = { s with board := (s.board.set f Cell.empty).set t (Cell.mark p) } := by
  unfold applyAction
  by_cases hmin : PLACEMENTS_BEFORE_MOVEMENT ≤ placements s p
  · have hb : hasReachedMovementMinimum s p = true := by
      simp [hasReachedMovementMinimum, hmin]
    rw [hb]
    simp only [PLACEMENTS_BEFORE_MOVEMENT] at hmin
    by_cases hf : s.board[f]? = some (Cell.mark p)
    · by_cases ht : s.board[t]? = some Cell.empty
      · by_cases hw : isCellInActiveGrid s (t / BOARD_SIZE) (t % BOARD_SIZE) = true
        · simp [hf, ht, hw, hmin, eq_comm]
        · simp [hf, ht, hw, hmin]
      · simp [hf, ht, hmin]
    · simp [hf, hmin]
  · have hb : hasReachedMovementMinimum s p = false := by
      simp [hasReachedMovementMinimum, hmin]
    rw [hb]
    simp only [PLACEMENTS_BEFORE_MOVEMENT] at hmin
    simp only [Bool.false_eq_true, not_false_eq_true, if_true, reduceCtorEq, false_iff,
      not_and]
    intro h
    omega

/-- Inversion of a successful shift. -/
theorem applyAction_shift_eq_ok {s s' : GameState} {p : Player} {dx dy : Int} :
    applyAction s (.shift dx dy) p = .ok s' ↔
      2 ≤ placements s p ∧ canShiftGrid s dx dy = true ∧
      s' = { s with
              activeX := ((s.activeX : Int) + dx).toNat
              activeY := ((s.activeY : Int) + dy).toNat } := by
  unfold applyAction
  by_cases hmin : PLACEMENTS_BEFORE_MOVEMENT ≤ placements s p
  · have hb : hasReachedMovementMinimum s p = true := by
      simp [hasReachedMovementMinimum, hmin]
    rw [hb]
    simp only [PLACEMENTS_BEFORE_MOVEMENT] at hmin
    by_cases hc : canShiftGrid s dx dy = true
    · simp [hc, hmin, eq_comm]
    · simp [hc, hmin]
  · have hb : hasReachedMovementMinimum s p = false := by
      simp [hasReachedMovementMinimum, hmin]
    rw [hb]
    simp only [PLACEMENTS_BEFORE_MOVEMENT] at hmin
    simp only [Bool.false_eq_true, not_false_eq_true, if_true, reduceCtorEq, false_iff,
      not_and]
    intro h
    omega

/-- The bounds checked by `canShiftGrid`, spelt out. -/
theorem canShiftGrid_iff {s : GameState} {dx dy : Int} :
    canShiftGrid s dx dy = true ↔
      0 ≤ (s.activeX : Int) + dx ∧ (s.activeX : Int) + dx ≤ 2 ∧
      0 ≤ (s.activeY : Int) + dy ∧ (s.activeY : Int) + dy ≤ 2 := by
  simp only [canShiftGrid, BOARD_SIZE, ACTIVE_SIZE, decide_eq_true_eq]
  omega

/-- If the winner scan answers a player, some scanned line holds three of that
player's markers. -/
theorem getWinnerAux_some {s : GameState} :
    ∀ {lines : List WinLine} {p : Player},
      getWinnerAux s lines = some p →
      ∃ l ∈ lines, windowCell s l.1 = some (Cell.mark p) ∧
        windowCell s l.2.1 = some (Cell.mark p) ∧
        windowCell s l.2.2 = some (Cell.mark p) := by
  intro lines
  induction lines with
  | nil => intro p h; simp [getWinnerAux] at h
  | cons line rest ih =>
    intro p h
    simp only [getWinnerAux] at h
    by_cases h1 : windowCell s line.1 = some Cell.empty
    · rw [if_pos h1] at h
      obtain ⟨l, hl, hc⟩ := ih h
      exact ⟨l, List.mem_cons_of_mem _ hl, hc⟩
    · rw [if_neg h1] at h
      by_cases h2 : windowCell s line.2.1 = windowCell s line.1
      · rw [if_neg (by simpa using h2)] at h
        by_cases h3 : windowCell s line.2.2 = windowCell s line.1
        · rw [if_pos h3] at h
          rcases hc1 : windowCell s line.1 with _ | c
          · rw [hc1] at h
            simp at h
          · rcases c with _ | q
            · exact absurd hc1 h1
            · rw [hc1] at h
              simp only [Option.some.injEq] at h
              subst h
              exact ⟨line, List.mem_cons_self _ _,
                hc1, by rw [h2, hc1], by rw [h3, hc1]⟩
        · rw [if_neg h3] at h
          obtain ⟨l, hl, hc⟩ := ih h
          exact ⟨l, List.mem_cons_of_mem _ hl, hc⟩
      · rw [if_pos (by simpa using fun hh => h2 hh)] at h
        obtain ⟨l, hl, hc⟩ := ih h
        exact ⟨l, List.mem_cons_of_mem _ hl, hc⟩

/-- Single-step preservation of the reachable-state invariant. -/
theorem invariant_step {s s' : GameState} {p : Player} {a : Action}
    (h : applyAction s a p = .ok s')
    (inv : s.placementsX ≤ 4 ∧ s.placementsO ≤ 4 ∧
      s.board.count (Cell.mark .X) ≤ s.placementsX ∧
      s.board.count (Cell.mark .O) ≤ s.placementsO ∧
      s.activeX ≤ 2 ∧ s.activeY ≤ 2) :
    s'.placementsX ≤ 4 ∧ s'.placementsO ≤ 4 ∧
      s'.board.count (Cell.mark .X) ≤ s'.placementsX ∧
      s'.board.count (Cell.mark .O) ≤ s'.placementsO ∧
      s'.activeX ≤ 2 ∧ s'.activeY ≤ 2 := by
  obtain ⟨h1, h2, h3, h4, h5, h6⟩ := inv
  cases a with
  | place i =>
    obtain ⟨hlt, he, rfl⟩ := applyAction_place_eq_ok.mp h
    obtain ⟨hilen, hie⟩ := List.getElem?_eq_some_iff.mp he
    have hcount : ∀ q : Player, (s.board.set i (Cell.mark p)).count (Cell.mark q) =
        s.board.count (Cell.mark q) + (if p = q then 1 else 0) := by
      intro q
      rw [List.count_set (Cell.mark p) (Cell.mark q) s.board i hilen, hie]
      simp only [beq_iff_eq, reduceCtorEq, if_false, Nat.sub_zero, Cell.mark.injEq]
    cases p <;> simp only [placements] at hlt <;>
      refine ⟨?_, ?_, ?_, ?_, h5, h6⟩ <;> simp [hcount] <;> omega
  | shift dx dy =>
    obtain ⟨hmin, hc, rfl⟩ := applyAction_shift_eq_ok.mp h
    have hbnd := canShiftGrid_iff.mp hc
    refine ⟨h1, h2, h3, h4, ?_, ?_⟩ <;> simp only [] <;> omega
  | move f t =>
    obtain ⟨hmin, hf, ht, hw, rfl⟩ := applyAction_move_eq_ok.mp h
    obtain ⟨hflen, hfe⟩ := List.getElem?_eq_some_iff.mp hf
    obtain ⟨htlen, hte⟩ := List.getElem?_eq_some_iff.mp ht
    have hft : f ≠ t := by
      intro hh
      rw [hh, ht] at hf
      exact absurd hf (by simp)
    have hcount : ∀ q : Player,
        ((s.board.set f Cell.empty).set t (Cell.mark p)).count (Cell.mark q) =
          s.board.count (Cell.mark q) := by
      intro q
      have hl1 : t < (s.board.set f Cell.empty).length := by
        simpa using htlen
      rw [List.count_set (Cell.mark p) (Cell.mark q) _ t hl1]
      rw [List.getElem_set_ne hft hl1, hte]
      rw [List.count_set Cell.empty (Cell.mark q) s.board f hflen, hfe]
      simp only [beq_iff_eq, reduceCtorEq, if_false, Nat.add_zero, Cell.mark.injEq]
      by_cases hpq : p = q
      · subst hpq
        have hmem : Cell.mark p ∈ s.board := by
          have hmm := List.getElem_mem hflen
          rwa [hfe] at hmm
        have hpos : 1 ≤ s.board.count (Cell.mark p) := List.one_le_count_iff.mpr hmem
        simp
        omega
      · simp [hpq]
    exact ⟨h1, h2, by rw [hcount]; exact h3, by rw [hcount]; exact h4, h5, h6⟩

end Lemmas

/-- C3: for every state with the window corner in {0,1,2}² and every player P,
`getAvailableActions` returns exactly `place(i)` for every empty cell i inside
the active window iff placementsP < 4, then `move(from, to)` for every cell
holding P's marker anywhere on the board and every empty in-window destination
with from ≠ to iff placementsP ≥ 2, then `shift(dx, dy)` for each of the eight
offsets keeping the corner inside {0,1,2}² iff placementsP ≥ 2 — in the order
place, move, shift. -/
theorem getAvailableActions_characterization (s : GameState) (p : Player)
    (hax : s.activeX ≤ 2) (hay : s.activeY ≤ 2) :
    ∃ pl mv sh, getAvailableActions s p = pl ++ mv ++ sh ∧
      (∀ a, a ∈ pl ↔ ∃ i, a = .place i ∧ placements s p < 4 ∧ i < 25 ∧
        isCellInActiveGrid s (i / 5) (i % 5) = true ∧
        s.board[i]? = some Cell.empty) ∧
      (∀ a, a ∈ mv ↔ ∃ f t, a = .move f t ∧ 2 ≤ placements s p ∧
        s.board[f]? = some (Cell.mark p) ∧ t < 25 ∧
        isCellInActiveGrid s (t / 5) (t % 5) = true ∧
        s.board[t]? = some Cell.empty ∧ f ≠ t) ∧
      (∀ a, a ∈ sh ↔ ∃ dx dy, a = .shift dx dy ∧ 2 ≤ placements s p ∧
        (dx, dy) ∈ allShiftOffsets ∧ 0 ≤ (s.activeX : Int) + dx ∧
        (s.activeX : Int) + dx ≤ 2 ∧ 0 ≤ (s.activeY : Int) + dy ∧
        (s.activeY : Int) + dy ≤ 2) := by
  refine ⟨placementActionsOf s p, getMoveActions s p, shiftActionsOf s p, rfl, ?_, ?_, ?_⟩
  · intro a
    rw [mem_placementActionsOf]
    constructor
    · rintro ⟨i, rfl, h4, hi, he⟩
      have hw := (mem_getActiveIndices_window hax hay).mp hi
      exact ⟨i, rfl, h4, hw.1, hw.2, he⟩
    · rintro ⟨i, rfl, h4, h25, hw, he⟩
      exact ⟨i, rfl, h4, (mem_getActiveIndices_window hax hay).mpr ⟨h25, hw⟩, he⟩
  · intro a
    rw [mem_getMoveActions]
    constructor
    · rintro ⟨f, t, rfl, hmin, hf, ht, hte, hne⟩
      have hw := (mem_getActiveIndices_window hax hay).mp ht
      exact ⟨f, t, rfl, hmin, hf, hw.1, hw.2, hte, hne⟩
    · rintro ⟨f, t, rfl, hmin, hf, h25, hw, hte, hne⟩
      exact ⟨f, t, rfl, hmin, hf, (mem_getActiveIndices_window hax hay).mpr ⟨h25, hw⟩,
        hte, hne⟩
  · intro a
    rw [mem_shiftActionsOf]
    constructor
    · rintro ⟨dx, dy, rfl, hmin, hmem, hcan⟩
      simp only [canShiftGrid, BOARD_SIZE, ACTIVE_SIZE, decide_eq_true_eq] at hcan
      exact ⟨dx, dy, rfl, hmin, hmem, by omega, by omega, by omega, by omega⟩
    · rintro ⟨dx, dy, rfl, hmin, hmem, hb1, hb2, hb3, hb4⟩
      refine ⟨dx, dy, rfl, hmin, hmem, ?_⟩
      simp only [canShiftGrid, BOARD_SIZE, ACTIVE_SIZE, decide_eq_true_eq]
      omega

/-- Witness for C3 at the initial state. -/
theorem getAvailableActions_characterization_witness :
    ∃ pl mv sh, getAvailableActions createInitialState .X = pl ++ mv ++ sh ∧
      (∀ a, a ∈ pl ↔ ∃ i, a = .place i ∧ placements createInitialState .X < 4 ∧ i < 25 ∧
        isCellInActiveGrid createInitialState (i / 5) (i % 5) = true ∧
        createInitialState.board[i]? = some Cell.empty) ∧
      (∀ a, a ∈ mv ↔ ∃ f t, a = .move f t ∧ 2 ≤ placements createInitialState .X ∧
        createInitialState.board[f]? = some (Cell.mark .X) ∧ t < 25 ∧
        isCellInActiveGrid createInitialState (t / 5) (t % 5) = true ∧
        createInitialState.board[t]? = some Cell.empty ∧ f ≠ t) ∧
      (∀ a, a ∈ sh ↔ ∃ dx dy, a = .shift dx dy ∧ 2 ≤ placements createInitialState .X ∧
        (dx, dy) ∈ allShiftOffsets ∧ 0 ≤ (createInitialState.activeX : Int) + dx ∧
        (createInitialState.activeX : Int) + dx ≤ 2 ∧
        0 ≤ (createInitialState.activeY : Int) + dy ∧
        (createInitialState.activeY : Int) + dy ≤ 2) :=
  getAvailableActions_characterization createInitialState .X (by decide) (by decide)

/-- C4: for every state with the window corner in {0,1,2}², every enumerated
action applies successfully. -/
theorem enumerated_actions_apply_ok (s : GameState) (p : Player)
    (hax : s.activeX ≤ 2) (hay : s.activeY ≤ 2) :
    ∀ a ∈ getAvailableActions s p, ∃ s', applyAction s a p = .ok s' :=
  fun _ h => applyAction_ok_of_available hax hay h

/-- Witness for C4: a concrete enumerated action at the initial state. -/
theorem enumerated_actions_apply_ok_witness :
    Action.place 6 ∈ getAvailableActions createInitialState .X ∧
      ∃ s', applyAction createInitialState (.place 6) .X = .ok s' :=
  ⟨by decide,
    enumerated_actions_apply_ok createInitialState .X (by decide) (by decide)
      (Action.place 6) (by decide)⟩

/-- C10: the place branch of `applyAction` never checks window membership:
with placementsP < 4 and an empty cell i outside the active window,
`applyAction` succeeds and sets `board[i] = P`. -/
theorem place_outside_window_succeeds (s : GameState) (p : Player) (i : Nat)
    (h4 : placements s p < 4) (he : s.board[i]? = some Cell.empty)
    (hout : isCellInActiveGrid s (i / 5) (i % 5) = false) :
    ∃ s', applyAction s (.place i) p = .ok s' ∧ s'.board[i]? = some (Cell.mark p) := by
  have h1 : hasReachedPlacementLimit s p = false := by
    simp only [hasReachedPlacementLimit, MAX_PLACEMENTS_PER_PLAYER, FIRST_PLAYER_PIECES,
      decide_eq_false_iff_not]
    omega
  have hlen : i < s.board.length := (List.getElem?_eq_some_iff.mp he).1
  refine ⟨{ s with
      board := s.board.set i (Cell.mark p)
      placementsX := if p = .X then s.placementsX + 1 else s.placementsX
      placementsO := if p = .O then s.placementsO + 1 else s.placementsO }, ?_, ?_⟩
  · simp [applyAction, h1, he]
  · simp [List.getElem?_set, hlen]

/-- Witness for C10: cell 0 (row A, column 1) is outside the initial window
whose corner is (1, 1), yet placing there succeeds. -/
theorem place_outside_window_succeeds_witness :
    ∃ s', applyAction createInitialState (.place 0) .X = .ok s' ∧
      s'.board[0]? = some (Cell.mark .X) :=
  place_outside_window_succeeds createInitialState .X 0 (by decide) (by decide) (by decide)

/-- C6: `getWinner` answers a player only via one of the eight lines fully
inside the current active window (so a three-in-a-row lying outside the
window, with no in-window line, yields no winner), and `isDraw` holds exactly
when no cell of the 25-cell board is empty and there is no winner. -/
theorem getWinner_window_only_isDraw (s : GameState) (hlen : s.board.length = 25) :
    (∀ p, getWinner s = some p →
      ∃ l ∈ relativeWinningLines,
        s.board[(s.activeY + l.1.1) * 5 + (s.activeX + l.1.2)]? = some (Cell.mark p) ∧
        s.board[(s.activeY + l.2.1.1) * 5 + (s.activeX + l.2.1.2)]? =
          some (Cell.mark p) ∧
        s.board[(s.activeY + l.2.2.1) * 5 + (s.activeX + l.2.2.2)]? =
          some (Cell.mark p)) ∧
    (isDraw s = true ↔ (¬ Cell.empty ∈ s.board) ∧ getWinner s = none) := by
  constructor
  · intro p h
    obtain ⟨l, hl, h1, h2, h3⟩ := getWinnerAux_some h
    refine ⟨l, hl, ?_, ?_, ?_⟩
    · simpa [windowCell, BOARD_SIZE] using h1
    · simpa [windowCell, BOARD_SIZE] using h2
    · simpa [windowCell, BOARD_SIZE] using h3
  · unfold isDraw
    by_cases hc : s.board.contains Cell.empty = true
    · rw [if_pos hc]
      simp only [Bool.false_eq_true, false_iff, not_and]
      intro hne
      exact absurd (List.elem_iff.mp hc) hne
    · rw [if_neg hc]
      have hne : ¬ Cell.empty ∈ s.board := fun hm => hc (List.elem_iff.mpr hm)
      simp [Option.isNone_iff_eq_none, hne]

/-- Witness for C6 at a state whose winning X-line fills the window's top
row. -/
theorem getWinner_window_only_isDraw_witness :
    (∃ l ∈ relativeWinningLines,
      topRowWinState.board[(topRowWinState.activeY + l.1.1) * 5 +
        (topRowWinState.activeX + l.1.2)]? = some (Cell.mark .X) ∧
      topRowWinState.board[(topRowWinState.activeY + l.2.1.1) * 5 +
        (topRowWinState.activeX + l.2.1.2)]? = some (Cell.mark .X) ∧
      topRowWinState.board[(topRowWinState.activeY + l.2.2.1) * 5 +
        (topRowWinState.activeX + l.2.2.2)]? = some (Cell.mark .X)) ∧
    (isDraw topRowWinState = true ↔
      (¬ Cell.empty ∈ topRowWinState.board) ∧ getWinner topRowWinState = none) :=
  ⟨(getWinner_window_only_isDraw topRowWinState (by decide)).1 .X (by decide),
    (getWinner_window_only_isDraw topRowWinState (by decide)).2⟩

/-- C7: exact failure conditions, in check order, and success effects of
`applyAction` on `move(f, t)` and on `shift(dx, dy)`. -/
theorem applyAction_move_shift_spec (s : GameState) (p : Player) :
    (∀ f t,
      (applyAction s (.move f t) p = .error .MovementPremature ↔
        placements s p < 2) ∧
      (applyAction s (.move f t) p = .error .NotOwnPiece ↔
        2 ≤ placements s p ∧ ¬ s.board[f]? = some (Cell.mark p)) ∧
      (applyAction s (.move f t) p = .error .DestinationOccupied ↔
        2 ≤ placements s p ∧ s.board[f]? = some (Cell.mark p) ∧
        ¬ s.board[t]? = some Cell.empty) ∧
      (applyAction s (.move f t) p = .error .DestinationOutsideWindow ↔
        2 ≤ placements s p ∧ s.board[f]? = some (Cell.mark p) ∧
        s.board[t]? = some Cell.empty ∧
        isCellInActiveGrid s (t / BOARD_SIZE) (t % BOARD_SIZE) = false) ∧
      ((∃ s', applyAction s (.move f t) p = .ok s') ↔
        2 ≤ placements s p ∧ s.board[f]? = some (Cell.mark p) ∧
        s.board[t]? = some Cell.empty ∧
        isCellInActiveGrid s (t / BOARD_SIZE) (t % BOARD_SIZE) = true) ∧
      (∀ s', applyAction s (.move f t) p = .ok s' →
        s'.board[f]? = some Cell.empty ∧ s'.board[t]? = some (Cell.mark p) ∧
        s'.placementsX = s.placementsX ∧ s'.placementsO = s.placementsO)) ∧
    (∀ dx dy,
      (applyAction s (.shift dx dy) p = .error .ShiftPremature ↔
        placements s p < 2) ∧
      (applyAction s (.shift dx dy) p = .error .ShiftOutOfBounds ↔
        2 ≤ placements s p ∧
        ¬ (0 ≤ (s.activeX : Int) + dx ∧ (s.activeX : Int) + dx ≤ 2 ∧
           0 ≤ (s.activeY : Int) + dy ∧ (s.activeY : Int) + dy ≤ 2)) ∧
      ((∃ s', applyAction s (.shift dx dy) p = .ok s') ↔
        2 ≤ placements s p ∧ 0 ≤ (s.activeX : Int) + dx ∧
        (s.activeX : Int) + dx ≤ 2 ∧ 0 ≤ (s.activeY : Int) + dy ∧
        (s.activeY : Int) + dy ≤ 2) ∧
      (∀ s', applyAction s (.shift dx dy) p = .ok s' →
        s'.board = s.board ∧ s'.placementsX = s.placementsX ∧
        s'.placementsO = s.placementsO ∧
        (s'.activeX : Int) = (s.activeX : Int) + dx ∧
        (s'.activeY : Int) = (s.activeY : Int) + dy)) := by
  constructor
  · intro f t
    by_cases hmin : 2 ≤ placements s p
    · have hb : hasReachedMovementMinimum s p = true := by
        simp [hasReachedMovementMinimum, PLACEMENTS_BEFORE_MOVEMENT, hmin]
      by_cases hf : s.board[f]? = some (Cell.mark p)
      · by_cases ht : s.board[t]? = some Cell.empty
        · by_cases hw : isCellInActiveGrid s (t / BOARD_SIZE) (t % BOARD_SIZE) = true
          · have happ : applyAction s (.move f t) p =
                .ok { s with board := (s.board.set f Cell.empty).set t (Cell.mark p) } := by
              simp [applyAction, hb, hf, ht, hw]
            have hft : f ≠ t := by
              intro hh
              rw [hh, ht] at hf
              exact absurd hf (by simp)
            have htf : ¬ (t = f) := fun hh => hft hh.symm
            have hflen : f < s.board.length := (List.getElem?_eq_some_iff.mp hf).1
            have htlen : t < s.board.length := (List.getElem?_eq_some_iff.mp ht).1
            refine ⟨?_, ?_, ?_, ?_, ?_, ?_⟩
            · rw [happ]; simp; omega
            · rw [happ]; simp [hf]
            · rw [happ]; simp [ht]
            · rw [happ]; simp [hw]
            · rw [happ]; simp [hmin, hf, ht, hw]
            · intro s' h
              rw [happ] at h
              simp only [Except.ok.injEq] at h
              subst h
              refine ⟨?_, ?_, rfl, rfl⟩
              · simp [List.getElem?_set, htf, hflen]
              · simp [List.getElem?_set, htlen]
          · have happ : applyAction s (.move f t) p = .error .DestinationOutsideWindow := by
              simp [applyAction, hb, hf, ht, hw]
            refine ⟨?_, ?_, ?_, ?_, ?_, ?_⟩ <;> rw [happ] <;>
              simp [hmin, hf, ht, hw] <;> omega
        · have happ : applyAction s (.move f t) p = .error .DestinationOccupied := by
            simp [applyAction, hb, hf, ht]
          refine ⟨?_, ?_, ?_, ?_, ?_, ?_⟩ <;> rw [happ] <;>
            simp [hmin, hf, ht] <;> omega
      · have happ : applyAction s (.move f t) p = .error .NotOwnPiece := by
          simp [applyAction, hb, hf]
        refine ⟨?_, ?_, ?_, ?_, ?_, ?_⟩ <;> rw [happ] <;>
          simp [hmin, hf] <;> omega
    · have hb : hasReachedMovementMinimum s p = false := by
        simp [hasReachedMovementMinimum, PLACEMENTS_BEFORE_MOVEMENT, hmin]
      have happ : applyAction s (.move f t) p = .error .MovementPremature := by
        simp [applyAction, hb]
      refine ⟨?_, ?_, ?_, ?_, ?_, ?_⟩ <;> rw [happ] <;>
        simp [hmin] <;> omega
  · intro dx dy
    by_cases hmin : 2 ≤ placements s p
    · have hb : hasReachedMovementMinimum s p = true := by
        simp [hasReachedMovementMinimum, PLACEMENTS_BEFORE_MOVEMENT, hmin]
      by_cases hc : canShiftGrid s dx dy = true
      · have happ : applyAction s (.shift dx dy) p =
            .ok { s with
                    activeX := ((s.activeX : Int) + dx).toNat
                    activeY := ((s.activeY : Int) + dy).toNat } := by
          simp [applyAction, hb, hc]
        have hbnd := canShiftGrid_iff.mp hc
        refine ⟨?_, ?_, ?_, ?_⟩
        · rw [happ]; simp; omega
        · rw [happ]; simp; intro h; omega
        · rw [happ]; simp [hmin]; omega
        · intro s' h
          rw [happ] at h
          simp only [Except.ok.injEq] at h
          subst h
          refine ⟨rfl, rfl, rfl, ?_, ?_⟩ <;> simp <;> omega
      · have happ : applyAction s (.shift dx dy) p = .error .ShiftOutOfBounds := by
          simp [applyAction, hb, hc]
        have hbnd : ¬ (0 ≤ (s.activeX : Int) + dx ∧ (s.activeX : Int) + dx ≤ 2 ∧
            0 ≤ (s.activeY : Int) + dy ∧ (s.activeY : Int) + dy ≤ 2) := fun hh =>
          hc (canShiftGrid_iff.mpr hh)
        refine ⟨?_, ?_, ?_, ?_⟩ <;> rw [happ]
        · simp; omega
        · simp [hmin, hbnd]
        · simp
          intro _ h2 h3 h4
          by_contra hgt
          exact hbnd ⟨h2, h3, h4, by omega⟩
        · simp
    · have hb : hasReachedMovementMinimum s p = false := by
        simp [hasReachedMovementMinimum, PLACEMENTS_BEFORE_MOVEMENT, hmin]
      have happ : applyAction s (.shift dx dy) p = .error .ShiftPremature := by
        simp [applyAction, hb]
      refine ⟨?_, ?_, ?_, ?_⟩ <;> rw [happ] <;> simp [hmin] <;> omega

/-- Witness for C7: a premature move from the initial state, a successful
move on a two-placement state, and an out-of-bounds shift. -/
theorem applyAction_move_shift_spec_witness :
    (applyAction createInitialState (.move 6 7) .X = .error .MovementPremature) ∧
    (∃ s', applyAction moveSampleState (.move 6 7) .X = .ok s' ∧
      s'.board[6]? = some Cell.empty ∧ s'.board[7]? = some (Cell.mark .X) ∧
      s'.placementsX = 2 ∧ s'.placementsO = 0) ∧
    (applyAction moveSampleState (.shift 0 2) .X = .error .ShiftOutOfBounds) := by
  refine ⟨?_, ?_, ?_⟩
  · exact (((applyAction_move_shift_spec createInitialState .X).1 6 7).1).mpr (by decide)
  · obtain ⟨s', hs'⟩ :=
      (((applyAction_move_shift_spec moveSampleState .X).1 6 7).2.2.2.2.1).mpr
        ⟨by decide, by decide, by decide, by decide⟩
    obtain ⟨h1, h2, h3, h4⟩ :=
      (((applyAction_move_shift_spec moveSampleState .X).1 6 7).2.2.2.2.2) s' hs'
    exact ⟨s', hs', h1, h2, h3, h4⟩
  · exact (((applyAction_move_shift_spec moveSampleState .X).2 0 2).2.1).mpr
      ⟨by decide, by decide⟩

/-- C9: every state reachable from the initial state through enumerated legal
actions keeps each placement counter at most 4, each side's marker count at
most its counter, and the window corner coordinates in {0, 1, 2}. -/
theorem reachable_invariant (s : GameState) (h : Reachable s) :
    s.placementsX ≤ 4 ∧ s.placementsO ≤ 4 ∧
    s.board.count (Cell.mark .X) ≤ s.placementsX ∧
    s.board.count (Cell.mark .O) ≤ s.placementsO ∧
    (s.activeX = 0 ∨ s.activeX = 1 ∨ s.activeX = 2) ∧
    (s.activeY = 0 ∨ s.activeY = 1 ∨ s.activeY = 2) := by
  induction h with
  | init =>
    refine ⟨by decide, by decide, ?_, ?_, by decide, by decide⟩ <;> decide
  | step hr hmem happ ih =>
    obtain ⟨i1, i2, i3, i4, i5, i6⟩ := ih
    have hout := invariant_step happ ⟨i1, i2, i3, i4, by omega, by omega⟩
    exact ⟨hout.1, hout.2.1, hout.2.2.1, hout.2.2.2.1, by omega, by omega⟩

/-- Witness for C9 at the initial state. -/
theorem reachable_invariant_witness :
    createInitialState.placementsX ≤ 4 ∧ createInitialState.placementsO ≤ 4 ∧
    createInitialState.board.count (Cell.mark .X) ≤ createInitialState.placementsX ∧
    createInitialState.board.count (Cell.mark .O) ≤ createInitialState.placementsO ∧
    (createInitialState.activeX = 0 ∨ createInitialState.activeX = 1 ∨
      createInitialState.activeX = 2) ∧
    (createInitialState.activeY = 0 ∨ createInitialState.activeY = 1 ∨
      createInitialState.activeY = 2) :=
  reachable_invariant createInitialState Reachable.init

/-- C1 (code bug): the claimed scores hold only for the intended default
evaluation — here the spec-modelled 3-argument default hook
`defaultEvaluationFunction`, since the shipped `evaluateTerminal` forwards
`(winner, aiPlayer, depth)` to the 4-parameter plugin of the shipped
`evaluation.ts` and that composition is ill-typed (NaN at every terminal
under type erasure).  With the intended hook, a position whose detected
winner equals the AI side scores 10 − depth with an empty principal
variation, and an opponent win scores depth − 10 with an empty principal
variation. -/
theorem minimax_terminal_default (s : GameState) (currentPlayer aiPlayer : Player)
    (depth maxDepth : Nat) (visited history : List String) (stats : MinimaxStats) :
    (getWinner s = some aiPlayer →
      minimax s currentPlayer aiPlayer depth maxDepth visited history stats
          defaultEvaluationFunction =
        .ok (⟨10 - (depth : Int), none, []⟩, ⟨stats.nodesVisited + 1⟩)) ∧
    (getWinner s = some (getOpponent aiPlayer) →
      minimax s currentPlayer aiPlayer depth maxDepth visited history stats
          defaultEvaluationFunction =
        .ok (⟨(depth : Int) - 10, none, []⟩, ⟨stats.nodesVisited + 1⟩)) := by
  have hop : getOpponent aiPlayer ≠ aiPlayer := by
    cases aiPlayer <;> simp [getOpponent]
  constructor <;> intro h <;>
    simp [minimax, minimaxFuel, h, evaluateTerminal, defaultEvaluationFunction, hop]

/-- Witness for C1 at a state whose window top row is three X markers. -/
theorem minimax_terminal_default_witness :
    minimax topRowWinState .O .X 2 6 [] [] ⟨5⟩ defaultEvaluationFunction =
      .ok (⟨10 - (2 : Int), none, []⟩, ⟨5 + 1⟩) ∧
    minimax topRowWinState .X .O 2 6 [] [] ⟨5⟩ defaultEvaluationFunction =
      .ok (⟨(2 : Int) - 10, none, []⟩, ⟨5 + 1⟩) :=
  ⟨(minimax_terminal_default topRowWinState .O .X 2 6 [] [] ⟨5⟩).1 (by decide),
    (minimax_terminal_default topRowWinState .X .O 2 6 [] [] ⟨5⟩).2 (by decide)⟩

section SearchLemmas

/-- When every action applies, the history filter is the pure filter by
`keepsFresh`. -/
theorem filterHistory_eq_filter {s : GameState} {p : Player} (history : List String) :
    ∀ {l : List Action}, (∀ a ∈ l, ∃ s', applyAction s a p = .ok s') →
      filterHistory s p history l = .ok (l.filter (keepsFresh s p history)) := by
  intro l
  induction l with
  | nil => intro _; simp [filterHistory]
  | cons a rest ih =>
    intro h
    obtain ⟨s', hs'⟩ := h a (List.mem_cons_self _ _)
    have hrest := ih fun b hb => h b (List.mem_cons_of_mem _ hb)
    simp only [filterHistory, hs', hrest, List.filter_cons]
    by_cases hc : history.contains (getStateKey s' (getOpponent p)) = true
    · have hmem : getStateKey s' (getOpponent p) ∈ history := List.elem_iff.mp hc
      have hk : keepsFresh s p history a = false := by simp [keepsFresh, hs', hmem]
      rw [if_pos hc, hk]
      simp
    · have hnot : getStateKey s' (getOpponent p) ∉ history := fun hm =>
        hc (List.elem_iff.mpr hm)
      have hk : keepsFresh s p history a = true := by simp [keepsFresh, hs', hnot]
      rw [if_neg hc, hk]
      simp

/-- A successful application keeps the window corner inside {0,1,2}². -/
theorem applyAction_window_bounds {s s' : GameState} {a : Action} {p : Player}
    (h : applyAction s a p = .ok s') (hax : s.activeX ≤ 2) (hay : s.activeY ≤ 2) :
    s'.activeX ≤ 2 ∧ s'.activeY ≤ 2 := by
  cases a with
  | place i =>
    obtain ⟨_, _, rfl⟩ := applyAction_place_eq_ok.mp h
    exact ⟨hax, hay⟩
  | move f t =>
    obtain ⟨_, _, _, _, rfl⟩ := applyAction_move_eq_ok.mp h
    exact ⟨hax, hay⟩
  | shift dx dy =>
    obtain ⟨_, hc, rfl⟩ := applyAction_shift_eq_ok.mp h
    have hbnd := canShiftGrid_iff.mp hc
    constructor <;> simp <;> omega

/-- An error accumulator propagates through the maximising loop. -/
theorem foldl_maxLoopStep_error {state : GameState} {cp : Player}
    {recurse : GameState → MinimaxStats →
      Except SearchError (MinimaxResult × MinimaxStats)} (e : SearchError) :
    ∀ l : List Action, l.foldl (maxLoopStep state cp recurse) (.error e) = .error e := by
  intro l
  induction l with
  | nil => rfl
  | cons a rest ih => simpa [maxLoopStep] using ih

/-- An error accumulator propagates through the minimising loop. -/
theorem foldl_minLoopStep_error {state : GameState} {cp : Player}
    {recurse : GameState → MinimaxStats →
      Except SearchError (MinimaxResult × MinimaxStats)} (e : SearchError) :
    ∀ l : List Action, l.foldl (minLoopStep state cp recurse) (.error e) = .error e := by
  intro l
  induction l with
  | nil => rfl
  | cons a rest ih => simpa [minLoopStep] using ih

/-- The maximising loop completes when each action applies and each child
search completes. -/
theorem foldl_maxLoopStep_ok {state : GameState} {cp : Player}
    {recurse : GameState → MinimaxStats →
      Except SearchError (MinimaxResult × MinimaxStats)} :
    ∀ (l : List Action),
      (∀ a ∈ l, ∃ ns, applyAction state a cp = .ok ns ∧
        ∀ st, ∃ r, recurse ns st = .ok r) →
      ∀ best st, ∃ out, l.foldl (maxLoopStep state cp recurse) (.ok (best, st)) = .ok out := by
  intro l
  induction l with
  | nil => intro _ best st; exact ⟨_, rfl⟩
  | cons a rest ih =>
    intro h best st
    obtain ⟨ns, hns, hrec⟩ := h a (List.mem_cons_self _ _)
    obtain ⟨⟨res, st2⟩, hr⟩ := hrec st
    have step : maxLoopStep state cp recurse (.ok (best, st)) a =
        .ok (maxStep best a res, st2) := by
      simp [maxLoopStep, hns, hr]
    rw [List.foldl_cons, step]
    exact ih (fun b hb => h b (List.mem_cons_of_mem _ hb)) _ _

/-- The minimising loop completes when each action applies and each child
search completes. -/
theorem foldl_minLoopStep_ok {state : GameState} {cp : Player}
    {recurse : GameState → MinimaxStats →
      Except SearchError (MinimaxResult × MinimaxStats)} :
    ∀ (l : List Action),
      (∀ a ∈ l, ∃ ns, applyAction state a cp = .ok ns ∧
        ∀ st, ∃ r, recurse ns st = .ok r) →
      ∀ worst st, ∃ out, l.foldl (minLoopStep state cp recurse) (.ok (worst, st)) = .ok out := by
  intro l
  induction l with
  | nil => intro _ worst st; exact ⟨_, rfl⟩
  | cons a rest ih =>
    intro h worst st
    obtain ⟨ns, hns, hrec⟩ := h a (List.mem_cons_self _ _)
    obtain ⟨⟨res, st2⟩, hr⟩ := hrec st
    have step : minLoopStep state cp recurse (.ok (worst, st)) a =
        .ok (minStep worst a res, st2) := by
      simp [minLoopStep, hns, hr]
    rw [List.foldl_cons, step]
    exact ih (fun b hb => h b (List.mem_cons_of_mem _ hb)) _ _

/-- The search never fails from a state whose window corner is in
{0,1,2}²: terminal and guard branches return, every enumerated action applies,
and children stay window-bounded. -/
theorem minimaxFuel_isOk :
    ∀ (fuel : Nat) (s : GameState) (cp ai : Player) (depth maxDepth : Nat)
      (visited history : List String) (stats : MinimaxStats)
      (evaluate : TerminalEvaluation), s.activeX ≤ 2 → s.activeY ≤ 2 →
      ∃ r, minimaxFuel fuel s cp ai depth maxDepth visited history stats evaluate =
        .ok r := by
  intro fuel
  induction fuel with
  | zero =>
    intro s cp ai depth maxDepth visited history stats evaluate _ _
    exact ⟨_, rfl⟩
  | succ fuel ih =>
    intro s cp ai depth maxDepth visited history stats evaluate hax hay
    simp only [minimaxFuel]
    cases hw : getWinner s with
    | some w => exact ⟨_, rfl⟩
    | none =>
      by_cases hd : isDraw s = true
      · simp only [hd, if_true]
        exact ⟨_, rfl⟩
      · simp only [hd, Bool.false_eq_true, if_false]
        by_cases hdep : maxDepth ≤ depth
        · simp only [if_pos hdep]
          exact ⟨_, rfl⟩
        · simp only [if_neg hdep]
          by_cases hv : visited.contains (getStateKey s cp) = true
          · simp only [hv, if_true]
            exact ⟨_, rfl⟩
          · simp only [hv, Bool.false_eq_true, if_false]
            have happlies : ∀ a ∈ getAvailableActions s cp,
                ∃ s', applyAction s a cp = .ok s' :=
              fun a hmem => applyAction_ok_of_available hax hay hmem
            rw [filterHistory_eq_filter history happlies]
            simp only []
            have hall : ∀ a ∈ (getAvailableActions s cp).filter (keepsFresh s cp history),
                ∃ ns, applyAction s a cp = .ok ns ∧
                  ∀ st, ∃ r, minimaxFuel fuel ns (getOpponent cp) ai (depth + 1) maxDepth
                    (getStateKey s cp :: visited) history st evaluate = .ok r := by
              intro a ha
              obtain ⟨ns, hns⟩ := happlies a (List.mem_of_mem_filter ha)
              have hb := applyAction_window_bounds hns hax hay
              exact ⟨ns, hns, fun st =>
                ih ns (getOpponent cp) ai (depth + 1) maxDepth
                  (getStateKey s cp :: visited) history st evaluate hb.1 hb.2⟩
            by_cases hne :
                ((getAvailableActions s cp).filter (keepsFresh s cp history)).isEmpty = true
            · simp only [hne, if_true]
              exact ⟨_, rfl⟩
            · simp only [hne, Bool.false_eq_true, if_false]
              by_cases hcp : cp = ai
              · subst hcp
                simp only [if_pos rfl]
                obtain ⟨out, hout⟩ :=
                  foldl_maxLoopStep_ok _ hall none ⟨stats.nodesVisited + 1⟩
                rw [hout]
                exact ⟨_, rfl⟩
              · simp only [hcp, if_false]
                obtain ⟨out, hout⟩ :=
                  foldl_minLoopStep_ok _ hall none ⟨stats.nodesVisited + 1⟩
                rw [hout]
                exact ⟨_, rfl⟩

/-- The filter predicate in terms of the successor state. -/
theorem keepsFresh_spec {s s' : GameState} {p : Player} {history : List String}
    {a : Action} (h : applyAction s a p = .ok s') :
    keepsFresh s p history a = ! history.contains (getStateKey s' (getOpponent p)) := by
  simp [keepsFresh, h]

/-- Shape of the root-evaluation loop output: one evaluation per root action,
in order, each PV headed by its root action. -/
theorem engineEvalLoop_shape {state : GameState} {opp ai : Player} {depthLimit : Nat}
    {rootKey : String} {history : List String} {evaluate : TerminalEvaluation} :
    ∀ {l : List Action} {stats out stats2},
      engineEvalLoop state opp ai depthLimit rootKey history evaluate l stats =
        .ok (out, stats2) →
      out.map (fun e => e.action) = l ∧ ∀ e ∈ out, ∃ rest, e.pv = e.action :: rest := by
  intro l
  induction l with
  | nil =>
    intro stats out stats2 h
    simp only [engineEvalLoop, Except.ok.injEq, Prod.mk.injEq] at h
    obtain ⟨h1, _⟩ := h
    subst h1
    simp
  | cons a rest ih =>
    intro stats out stats2 h
    simp only [engineEvalLoop] at h
    split at h
    next e heq => simp at h
    next ns heq =>
      split at h
      next e2 heq2 => simp at h
      next res st2 heq2 =>
        split at h
        next e3 heq3 => simp at h
        next tail st3 heq3 =>
          simp only [Except.ok.injEq, Prod.mk.injEq] at h
          obtain ⟨h1, _⟩ := h
          subst h1
          obtain ⟨ht, hpv⟩ := ih heq3
          refine ⟨by simp [ht], ?_⟩
          intro e he
          rcases List.mem_cons.mp he with rfl | hmem
          · exact ⟨res.pv, rfl⟩
          · exact hpv e hmem

/-- The root-evaluation loop completes when every root action applies and the
successor states are window-bounded. -/
theorem engineEvalLoop_isOk (state : GameState) (opp ai : Player) (depthLimit : Nat)
    (rootKey : String) (history : List String) (evaluate : TerminalEvaluation) :
    ∀ {l : List Action},
      (∀ a ∈ l, ∃ ns, applyAction state a ai = .ok ns ∧ ns.activeX ≤ 2 ∧
        ns.activeY ≤ 2) →
      ∀ stats, ∃ out stats2,
        engineEvalLoop state opp ai depthLimit rootKey history evaluate l stats =
          .ok (out, stats2) := by
  intro l
  induction l with
  | nil => intro _ stats; exact ⟨[], stats, rfl⟩
  | cons a rest ih =>
    intro h stats
    obtain ⟨ns, hns, hnx, hny⟩ := h a (List.mem_cons_self _ _)
    obtain ⟨⟨res, st2⟩, hr⟩ := minimaxFuel_isOk (depthLimit - 1 + 1) ns opp ai 1
      depthLimit [rootKey] history stats evaluate hnx hny
    obtain ⟨tail, st3, hrec⟩ := ih (fun b hb => h b (List.mem_cons_of_mem _ hb)) st2
    refine ⟨⟨res.score, a, a :: res.pv⟩ :: tail, st3, ?_⟩
    simp only [engineEvalLoop, hns]
    rw [show minimax ns opp ai 1 depthLimit [rootKey] history stats evaluate =
      .ok (res, st2) from hr]
    simp only [hrec]

end SearchLemmas

/-- C8: evaluations returned by `getEngineEvaluations` are sorted by
non-increasing score, every returned principal variation begins with its own
root action, K > 0 returns at most K evaluations, and K ≤ 0 returns one
evaluation per filtered root action. -/
theorem engine_evaluations_sorted (state : GameState) (ai : Player)
    (history : List String) (depthLimit : Nat) (count : Int)
    (evaluate : TerminalEvaluation) (evs : List EngineEvaluation)
    (stats : MinimaxStats)
    (h : getEngineEvaluations state ai history depthLimit count evaluate =
      .ok (evs, stats)) :
    List.Pairwise (fun a b => b.score ≤ a.score) evs ∧
    (∀ e ∈ evs, ∃ rest, e.pv = e.action :: rest) ∧
    (0 < count → evs.length ≤ count.toNat) ∧
    (count ≤ 0 → ∀ actions,
      filterHistory state ai history (getAvailableActions state ai) = .ok actions →
      evs.length = actions.length) := by
  haveI : IsTotal EngineEvaluation scoreDescOrder :=
    ⟨fun a b => Int.le_total b.score a.score⟩
  haveI : IsTrans EngineEvaluation scoreDescOrder :=
    ⟨fun a b c hab hbc => le_trans hbc hab⟩
  unfold getEngineEvaluations at h
  cases hfil : filterHistory state ai history (getAvailableActions state ai) with
  | error e => simp [hfil] at h
  | ok actions =>
    simp only [hfil] at h
    by_cases hne : actions.isEmpty = true
    · rw [if_pos hne] at h
      simp only [Except.ok.injEq, Prod.mk.injEq] at h
      obtain ⟨h1, _⟩ := h
      subst h1
      refine ⟨by simp, by simp, by simp, ?_⟩
      intro _ actions2 hfil2
      simp only [Except.ok.injEq] at hfil2
      subst hfil2
      rw [List.isEmpty_iff.mp hne]
      simp
    · rw [if_neg hne] at h
      cases hloop : engineEvalLoop state (getOpponent ai) ai depthLimit
          (getStateKey state ai) history evaluate actions ⟨0⟩ with
      | error e2 => simp [hloop] at h
      | ok pr =>
        obtain ⟨out, st2⟩ := pr
        simp only [hloop] at h
        simp only [Except.ok.injEq, Prod.mk.injEq] at h
        obtain ⟨h1, _⟩ := h
        subst h1
        obtain ⟨hmap, hpv⟩ := engineEvalLoop_shape hloop
        set sorted := out.insertionSort scoreDescOrder with hsorted_def
        have hsorted : List.Pairwise scoreDescOrder sorted :=
          List.sorted_insertionSort scoreDescOrder out
        have hperm := List.perm_insertionSort scoreDescOrder out
        have hlen_sorted : sorted.length = actions.length := by
          rw [hperm.length_eq, ← hmap, List.length_map]
        have hmem_sorted : ∀ e ∈ sorted, ∃ rest, e.pv = e.action :: rest := fun e he =>
          hpv e (hperm.mem_iff.mp he)
        by_cases h0 : 0 < count
        · rw [if_pos h0]
          refine ⟨?_, ?_, ?_, ?_⟩
          · exact (List.Pairwise.sublist (List.take_sublist _ _) hsorted :)
          · exact fun e he => hmem_sorted e (List.take_subset _ _ he)
          · intro _
            rw [List.length_take]
            exact Nat.min_le_left _ _
          · intro hc0
            omega
        · rw [if_neg h0]
          refine ⟨(hsorted :), hmem_sorted, fun hc0 => absurd hc0 h0, ?_⟩
          intro _ actions2 hfil2
          simp only [Except.ok.injEq] at hfil2
          subst hfil2
          exact hlen_sorted

/-- Witness for C8: the depth-1, K = 3 engine report from the initial state. -/
theorem engine_evaluations_sorted_witness :
    List.Pairwise (fun a b => b.score ≤ a.score)
      ([⟨0, .place 6, [.place 6]⟩, ⟨0, .place 7, [.place 7]⟩,
        ⟨0, .place 8, [.place 8]⟩] : List EngineEvaluation) ∧
    (∀ e ∈ ([⟨0, .place 6, [.place 6]⟩, ⟨0, .place 7, [.place 7]⟩,
        ⟨0, .place 8, [.place 8]⟩] : List EngineEvaluation),
      ∃ rest, e.pv = e.action :: rest) ∧
    (0 < (3 : Int) →
      ([⟨0, .place 6, [.place 6]⟩, ⟨0, .place 7, [.place 7]⟩,
        ⟨0, .place 8, [.place 8]⟩] : List EngineEvaluation).length ≤ (3 : Int).toNat) ∧
    ((3 : Int) ≤ 0 → ∀ actions,
      filterHistory createInitialState .X []
        (getAvailableActions createInitialState .X) = .ok actions →
      ([⟨0, .place 6, [.place 6]⟩, ⟨0, .place 7, [.place 7]⟩,
        ⟨0, .place 8, [.place 8]⟩] : List EngineEvaluation).length = actions.length) :=
  engine_evaluations_sorted createInitialState .X [] 1 3 defaultEvaluationFunction
    [⟨0, .place 6, [.place 6]⟩, ⟨0, .place 7, [.place 7]⟩, ⟨0, .place 8, [.place 8]⟩]
    ⟨9⟩ (by rfl)

/-- C5: `chooseBestAction` throws NoLegalMoves iff every enumerated root
action leads to a successor state whose key is in the history set (or there
are no enumerated actions at all); otherwise it returns an action whose
successor-state key is not in the history set. -/
theorem chooseBestAction_spec (state : GameState) (ai : Player)
    (history : List String) (depthLimit : Nat) (evaluate : TerminalEvaluation)
    (hax : state.activeX ≤ 2) (hay : state.activeY ≤ 2) :
    (chooseBestAction state ai history depthLimit evaluate = .error .NoLegalMoves ↔
      ∀ a ∈ getAvailableActions state ai, ∀ s', applyAction state a ai = .ok s' →
        history.contains (getStateKey s' (getOpponent ai)) = true) ∧
    (∀ a, chooseBestAction state ai history depthLimit evaluate = .ok a →
      a ∈ getAvailableActions state ai ∧
      ∃ s', applyAction state a ai = .ok s' ∧
        history.contains (getStateKey s' (getOpponent ai)) = false) ∧
    ((∃ a ∈ getAvailableActions state ai, ∃ s', applyAction state a ai = .ok s' ∧
        history.contains (getStateKey s' (getOpponent ai)) = false) →
      ∃ a, chooseBestAction state ai history depthLimit evaluate = .ok a) := by
  have happlies : ∀ a ∈ getAvailableActions state ai,
      ∃ s', applyAction state a ai = .ok s' :=
    fun a hmem => applyAction_ok_of_available hax hay hmem
  have hfil := filterHistory_eq_filter history happlies
  set filtered := (getAvailableActions state ai).filter (keepsFresh state ai history)
    with hfiltered
  have hchar : filtered = [] ↔
      (∀ a ∈ getAvailableActions state ai, ∀ s', applyAction state a ai = .ok s' →
        history.contains (getStateKey s' (getOpponent ai)) = true) := by
    rw [hfiltered, List.filter_eq_nil_iff]
    constructor
    · intro hall a hmem s' hs'
      have hk := hall a hmem
      rw [keepsFresh_spec hs'] at hk
      simpa using hk
    · intro hall a hmem
      obtain ⟨s', hs'⟩ := happlies a hmem
      rw [keepsFresh_spec hs']
      simpa using List.elem_iff.mp (hall a hmem s' hs')
  by_cases hemp : filtered = []
  · have hengine : getEngineEvaluations state ai history depthLimit 1 evaluate =
        .ok ([], ⟨0⟩) := by
      unfold getEngineEvaluations
      simp only [hfil]
      simp [hemp]
    have hchoose : chooseBestAction state ai history depthLimit evaluate =
        .error .NoLegalMoves := by
      unfold chooseBestAction
      rw [hengine]
    refine ⟨?_, ?_, ?_⟩
    · rw [hchoose]
      simp only [true_iff]
      exact hchar.mp hemp
    · intro a ha
      rw [hchoose] at ha
      simp at ha
    · rintro ⟨a, hmem, s', hs', hc⟩
      have := hchar.mp hemp a hmem s' hs'
      rw [this] at hc
      cases hc
  · have hallf : ∀ a ∈ filtered, ∃ ns, applyAction state a ai = .ok ns ∧
        ns.activeX ≤ 2 ∧ ns.activeY ≤ 2 := by
      intro a ha
      obtain ⟨ns, hns⟩ := happlies a (List.mem_of_mem_filter ha)
      have hb := applyAction_window_bounds hns hax hay
      exact ⟨ns, hns, hb.1, hb.2⟩
    obtain ⟨out, st2, hloop⟩ := engineEvalLoop_isOk state (getOpponent ai) ai depthLimit
      (getStateKey state ai) history evaluate hallf ⟨0⟩
    have hne : filtered.isEmpty = false := by
      cases hf : filtered with
      | nil => exact absurd hf hemp
      | cons x xs => rfl
    have hengine : getEngineEvaluations state ai history depthLimit 1 evaluate =
        .ok ((out.insertionSort scoreDescOrder).take 1, st2) := by
      unfold getEngineEvaluations
      simp only [hfil, hne, Bool.false_eq_true, if_false, hloop]
      norm_num
    obtain ⟨hmap, hpv⟩ := engineEvalLoop_shape hloop
    have hperm := List.perm_insertionSort scoreDescOrder out
    have hout_ne : out ≠ [] := by
      intro hnil
      rw [hnil] at hmap
      simp only [List.map_nil] at hmap
      exact hemp hmap.symm
    cases hsort : out.insertionSort scoreDescOrder with
    | nil =>
      have hlen := hperm.length_eq
      rw [hsort] at hlen
      simp only [List.length_nil] at hlen
      exact absurd (List.length_eq_zero.mp hlen.symm) hout_ne
    | cons ehead etail =>
      have hchoose : chooseBestAction state ai history depthLimit evaluate =
          .ok ehead.action := by
        unfold chooseBestAction
        rw [hengine, hsort]
        simp
      have hhead_out : ehead ∈ out := by
        have : ehead ∈ out.insertionSort scoreDescOrder := by
          rw [hsort]
          exact List.mem_cons_self _ _
        exact hperm.mem_iff.mp this
      have haction_mem : ehead.action ∈ filtered := by
        rw [← hmap]
        exact List.mem_map_of_mem _ hhead_out
      have hmem_avail : ehead.action ∈ getAvailableActions state ai :=
        List.mem_of_mem_filter haction_mem
      have hkf : keepsFresh state ai history ehead.action = true :=
        (List.mem_filter.mp haction_mem).2
      obtain ⟨s', hs'⟩ := happlies ehead.action hmem_avail
      rw [keepsFresh_spec hs'] at hkf
      have hfresh : history.contains (getStateKey s' (getOpponent ai)) = false := by
        simpa using hkf
      refine ⟨?_, ?_, ?_⟩
      · rw [hchoose]
        constructor
        · intro habs
          cases habs
        · intro hall
          exact absurd (hchar.mpr hall) hemp
      · intro a ha
        rw [hchoose] at ha
        simp only [Except.ok.injEq] at ha
        subst ha
        exact ⟨hmem_avail, s', hs', hfresh⟩
      · intro _
        exact ⟨ehead.action, hchoose⟩

/-- Witness for C5: from the initial state with empty history, the engine
returns a fresh action. -/
theorem chooseBestAction_spec_witness :
    ∃ a, chooseBestAction createInitialState .X [] 1 defaultEvaluationFunction =
        .ok a ∧
      a ∈ getAvailableActions createInitialState .X ∧
      ∃ s', applyAction createInitialState a .X = .ok s' ∧
        ([] : List String).contains (getStateKey s' (getOpponent .X)) = false := by
  have hspec := chooseBestAction_spec createInitialState .X [] 1
    defaultEvaluationFunction (by decide) (by decide)
  have hok : chooseBestAction createInitialState .X [] 1 defaultEvaluationFunction =
      .ok (.place 6) := by rfl
  obtain ⟨hmem, s', hs', hc⟩ := hspec.2.1 (.place 6) hok
  exact ⟨.place 6, hok, hmem, s', hs', hc⟩

/-- Totality of the multi-PV driver from a window-bounded state. -/
theorem getEngineEvaluations_isOk (state : GameState) (ai : Player)
    (history : List String) (depthLimit : Nat) (count : Int)
    (evaluate : TerminalEvaluation) (hax : state.activeX ≤ 2)
    (hay : state.activeY ≤ 2) :
    ∃ evs stats,
      getEngineEvaluations state ai history depthLimit count evaluate =
        .ok (evs, stats) := by
  have happlies : ∀ a ∈ getAvailableActions state ai,
      ∃ s', applyAction state a ai = .ok s' :=
    fun a hmem => applyAction_ok_of_available hax hay hmem
  have hfil := filterHistory_eq_filter history happlies
  set filtered := (getAvailableActions state ai).filter (keepsFresh state ai history)
    with hfiltered
  by_cases hemp : filtered.isEmpty = true
  · refine ⟨[], ⟨0⟩, ?_⟩
    unfold getEngineEvaluations
    simp only [hfil]
    simp [hemp]
  · have hallf : ∀ a ∈ filtered, ∃ ns, applyAction state a ai = .ok ns ∧
        ns.activeX ≤ 2 ∧ ns.activeY ≤ 2 := by
      intro a ha
      obtain ⟨ns, hns⟩ := happlies a (List.mem_of_mem_filter ha)
      have hb := applyAction_window_bounds hns hax hay
      exact ⟨ns, hns, hb.1, hb.2⟩
    obtain ⟨out, st2, hloop⟩ := engineEvalLoop_isOk state (getOpponent ai) ai depthLimit
      (getStateKey state ai) history evaluate hallf ⟨0⟩
    refine ⟨if 0 < count then (out.insertionSort scoreDescOrder).take count.toNat
      else out.insertionSort scoreDescOrder, st2, ?_⟩
    unfold getEngineEvaluations
    simp only [hfil]
    simp [hemp, hloop]

/-- C2 (code bug): the engine's accumulated statistics record holds only the
`nodesVisited` counter — `MinimaxStats` has no `cacheHits` or `cutoffs`
fields and the un-pruned search counts no cutoffs — and the search from the
initial state at maxDepth 4 returns exactly such a nodesVisited-only
record. -/
theorem stats_nodesVisited_only :
    (∀ st : MinimaxStats, st = ⟨st.nodesVisited⟩) ∧
    (∃ evs n, getEngineEvaluations createInitialState .X [] 4 3
      defaultEvaluationFunction = .ok (evs, ⟨n⟩)) := by
  refine ⟨fun st => rfl, ?_⟩
  obtain ⟨evs, stats, h⟩ := getEngineEvaluations_isOk createInitialState .X [] 4 3
    defaultEvaluationFunction (by decide) (by decide)
  exact ⟨evs, stats.nodesVisited, h⟩

end TicTacTwo
